import Mathlib

/-!
# Blockwise GET with per-exchange token rotation

A shallow embedding of `pkg/blockwise/blockwise.go`: the Block2 option codec
(`encodeBlock2`, `decodeBlock2`) and the request/response loop of
`blockwiseGETWithTokenRotation`.

Machine integers are natural numbers; every place where the Go code can
truncate (`uint32` shift and increment, `uint8` conversion, `uint16`
increment) carries an explicit `% 2 ^ w`.

The loop talks to the outside world (deadline, random source, UDP socket,
message codec of the CoAP library).  Everything the outside world decides in
one loop iteration is collected in a `Round`; the loop is a function of the
list of rounds and reports, next to its outcome, the effects it performed.
-/

namespace Blockwise

/-! ## Block2 option codec -/

/-- The Go function `encodeBlock2(num uint32, more bool, szx uint8) uint32`. -/
def encodeBlock2 (num : Nat) (more : Bool) (szx : Nat) : Nat :=
  let value := ((num <<< 4) % 2 ^ 32) ||| (szx &&& 0x07)
  if more then value ||| 0x08 else value

/-- The Go function `decodeBlock2(v uint32) (more bool, num uint32, szx uint32)`. -/
def decodeBlock2 (v : Nat) : Bool × Nat × Nat :=
  (((v >>> 3) &&& 0x1) == 1, v >>> 4, v &&& 0x7)

/-! ## Messages -/

/-- Modelled from the spec: the library constant `codes.GET`, request code 0.01. -/
def GET : Nat := 1

/-- Modelled from the spec: the library constant `codes.Content`, response code
2.05 (class 2, detail 5). -/
def Content : Nat := 2 * 32 + 5

/-- Modelled from the spec: the library constant `codes.Valid`, response code
2.03 (class 2, detail 3). -/
def Valid : Nat := 2 * 32 + 3

/-- CoAP message types of the library (`udpmsg.Confirmable` and its siblings). -/
inductive MsgType where
  | Confirmable
  | NonConfirmable
  | Acknowledgement
  | Reset
  deriving DecidableEq

/-- The fields the loop sets on the request message (lines 139-148). -/
structure Request where
  code : Nat
  token : List Nat
  messageID : Nat
  type : MsgType
  path : String
  block2 : Nat
  deriving DecidableEq

/-- What the loop reads from a response that `Unmarshal` accepted:
`resp.Token()`, `resp.Code()`, the result of `resp.ReadBody()` (`none` when it
returns an error) and of `resp.GetOptionUint32(message.Block2)` (`none` when
it returns an error, i.e. the option is absent). -/
structure Response where
  token : List Nat
  code : Nat
  body : Option (List Nat)
  block2 : Option Nat
  deriving DecidableEq

/-- How far the network part of one iteration gets: `req.Marshal()` fails,
`udpConn.Write` fails, `udpConn.Read` fails (a timeout included),
`resp.Unmarshal` fails, or a response is decoded. -/
inductive Reply where
  | marshalFailed
  | writeFailed
  | readFailed
  | unmarshalFailed
  | message (resp : Response)
  deriving DecidableEq

/-- What the outside world decides in one loop iteration: whether `ctx.Err()`
is non-nil at the top of the iteration, the bytes `generateToken()` returns,
and the fate of the exchange on the network. -/
structure Round where
  ctxErr : Bool
  token : List Nat
  reply : Reply
  deriving DecidableEq

/-- The errors `blockwiseGETWithTokenRotation` returns, with the values of the
locals (`blockNum`, `token`) their messages are formatted from.  The token
mismatch and response code messages also format `resp.Token()` and
`resp.Code()`, read after `msgPool.ReleaseMessage(resp)` has handed the
message back to the pool (lines 181-182, 187-188); what the pool leaves in a
released message is not part of the error value. -/
inductive Error where
  | contextCancelled
  | marshalRequest
  | writeRequest
  | readResponse (blockNum : Nat)
  | unmarshalResponse
  | tokenMismatch (blockNum : Nat) (expected : List Nat)
  | unexpectedCode
  | readBody (blockNum : Nat)
  deriving DecidableEq

/-- Observable actions of the loop, in program order: a call of
`generateToken`, a request built, `udpConn.Write` called with the marshalled
request, `udpConn.Read` called. -/
inductive Effect where
  | generateToken (token : List Nat)
  | request (req : Request)
  | write (req : Request)
  | read
  deriving DecidableEq

/-! ## The transfer loop -/

/-- The local variables of `blockwiseGETWithTokenRotation` that live across
iterations. -/
structure Session where
  fullPayload : List Nat
  blockNum : Nat
  szx : Nat
  messageID : Nat
  deriving DecidableEq

/-- The values of the locals before the first iteration (lines 121-124). -/
def Session.init : Session :=
  { fullPayload := [], blockNum := 0, szx := 6, messageID := 1 }

/-- How one iteration leaves the loop body: falls through to the next
iteration, `break`s (the function then returns the buffer), or returns an
error. -/
inductive Step where
  | next (s : Session)
  | done (payload : List Nat)
  | failed (e : Error)
  deriving DecidableEq

/-- The request of one iteration (lines 139-148). -/
def mkRequest (path : String) (s : Session) (token : List Nat) : Request :=
  { code := GET
    token := token
    messageID := s.messageID
    type := MsgType.Confirmable
    path := path
    block2 := encodeBlock2 s.blockNum false s.szx }

/-- One iteration of the `for` loop (lines 129-222). -/
def exchange (path : String) (s : Session) (r : Round) : List Effect × Step :=
  if r.ctxErr then
    ([], Step.failed Error.contextCancelled)
  else
    let token := r.token
    let req := mkRequest path s token
    match r.reply with
    | Reply.marshalFailed =>
      ([Effect.generateToken token, Effect.request req], Step.failed Error.marshalRequest)
    | Reply.writeFailed =>
      ([Effect.generateToken token, Effect.request req, Effect.write req],
        Step.failed Error.writeRequest)
    | Reply.readFailed =>
      ([Effect.generateToken token, Effect.request req, Effect.write req, Effect.read],
        Step.failed (Error.readResponse s.blockNum))
    | Reply.unmarshalFailed =>
      ([Effect.generateToken token, Effect.request req, Effect.write req, Effect.read],
        Step.failed Error.unmarshalResponse)
    | Reply.message resp =>
      ([Effect.generateToken token, Effect.request req, Effect.write req, Effect.read],
        if resp.token ≠ token then
          Step.failed (Error.tokenMismatch s.blockNum token)
        else if resp.code ≠ Content ∧ resp.code ≠ Valid then
          Step.failed Error.unexpectedCode
        else
          match resp.body with
          | none => Step.failed (Error.readBody s.blockNum)
          | some payload =>
            let fullPayload := s.fullPayload ++ payload
            match resp.block2 with
            | none => Step.done fullPayload
            | some block2Resp =>
              let (more, num, respSzx) := decodeBlock2 block2Resp
              let szx := respSzx % 2 ^ 8
              if !more then
                Step.done fullPayload
              else
                Step.next
                  { fullPayload := fullPayload
                    blockNum := (num + 1) % 2 ^ 32
                    szx := szx
                    messageID := (s.messageID + 1) % 2 ^ 16 })

/-- Result of running the loop on a list of rounds: the function returned the
payload, returned an error, or is about to start a further iteration with the
given locals (the list was used up). -/
inductive Outcome where
  | returned (payload : List Nat)
  | failed (e : Error)
  | running (s : Session)
  deriving DecidableEq

/-- The `for` loop, started with locals `s`, on the rounds the outside world
supplies. -/
def loop (path : String) : Session → List Round → List Effect × Outcome
  | s, [] => ([], Outcome.running s)
  | s, r :: rs =>
    match exchange path s r with
    | (fx, Step.next s') =>
      let rest := loop path s' rs
      (fx ++ rest.1, rest.2)
    | (fx, Step.done payload) => (fx, Outcome.returned payload)
    | (fx, Step.failed e) => (fx, Outcome.failed e)

/-- The Go function `blockwiseGETWithTokenRotation(ctx, udpConn, path)`; the
context and the connection are represented by the rounds. -/
def blockwiseGETWithTokenRotation (path : String) (rounds : List Round) :
    List Effect × Outcome :=
  loop path Session.init rounds

/-- The requests built, in order, among a list of effects. -/
def requests : List Effect → List Request
  | [] => []
  | Effect.request req :: fx => req :: requests fx
  | _ :: fx => requests fx

/-- Block number carried by a Block2 option value (the bits above bit 3). -/
def block2Num (v : Nat) : Nat := (decodeBlock2 v).2.1

/-- A round in which the deadline has not expired and a response with the
request's token, code 2.05, the given payload and Block2 value arrives. -/
def okRound (token payload : List Nat) (block2 : Option Nat) : Round :=
  { ctxErr := false
    token := token
    reply := Reply.message { token := token, code := Content, body := some payload, block2 := block2 } }

/-- The payload a round delivers: the body of its response, when a response is
decoded and its body is read. -/
def Round.payload (r : Round) : Option (List Nat) :=
  match r.reply with
  | Reply.message resp => resp.body
  | _ => none

/-- The effects of an iteration that gets as far as reading a datagram: token
generated, request built, request written, one read. -/
def exchangeEffects (path : String) (s : Session) (token : List Nat) : List Effect :=
  [Effect.generateToken token, Effect.request (mkRequest path s token),
    Effect.write (mkRequest path s token), Effect.read]

/-! ## Sample rounds -/

/-- Token of the first sample exchange. -/
def tokenA : List Nat := [0x11, 0x22, 0x33, 0x44, 0x55, 0x66, 0x77, 0x88]

/-- Token of the second sample exchange. -/
def tokenB : List Nat := [0xa1, 0xa2, 0xa3, 0xa4, 0xa5, 0xa6, 0xa7, 0xa8]

/-- Token of the third sample exchange. -/
def tokenC : List Nat := [0x01, 0x02, 0x03, 0x04, 0x05, 0x06, 0x07, 0x08]

/-- A first exchange answered with block 0 of 16 bytes (szx 0), more blocks
to follow. -/
def firstRound : Round := okRound tokenA (List.replicate 16 0xab) (some 0x08)

/-- The locals after `firstRound`. -/
def afterFirst : Session :=
  { fullPayload := List.replicate 16 0xab, blockNum := 1, szx := 0, messageID := 2 }

/-- The three-block scenario: 1024, 1024 and 200 bytes served at szx 6. -/
def threeBlocks : List Round :=
  [okRound tokenA (List.replicate 1024 0xa) (some 0x0e),
   okRound tokenB (List.replicate 1024 0xb) (some 0x1e),
   okRound tokenC (List.replicate 200 0xc) (some 0x26)]

/-- A server that answers the request for block 0 with block 5 and announces
more blocks, then the last block. -/
def skippingRounds : List Round :=
  [okRound tokenA (List.replicate 16 0xab) (some (encodeBlock2 5 true 0)),
   okRound tokenB [1, 2, 3] none]

/-! ## Arithmetic reading of the codec -/

theorem or_low (m t : Nat) (ht : t < 16) : (16 * m) ||| t = 16 * m + t := by
  have h := Nat.mul_add_lt_is_or (i := 4) (b := t) (by simpa using ht) m
  simpa using h.symm

theorem or_eight (t : Nat) (ht : t < 8) : t ||| 8 = t + 8 := by
  interval_cases t <;> rfl

theorem and_seven (x : Nat) : x &&& 7 = x % 8 := by
  have h := Nat.and_pow_two_sub_one_eq_mod x 3
  simpa using h

theorem and_one (x : Nat) : x &&& 1 = x % 2 := by
  simp

theorem testBit_three (v : Nat) : v.testBit 3 = (v / 8 % 2 == 1) := by
  rw [Nat.testBit_to_div_mod]
  by_cases h : v / 8 % 2 = 1 <;> simp [h]

theorem encodeBlock2_eq (num : Nat) (more : Bool) (szx : Nat) :
    encodeBlock2 num more szx
      = 16 * (num % 2 ^ 28) + szx % 8 + (if more then 8 else 0) := by
  have h1 : (num <<< 4) % 2 ^ 32 = 16 * (num % 2 ^ 28) := by
    rw [Nat.shiftLeft_eq]; norm_num; omega
  have h8 : szx % 8 < 8 := Nat.mod_lt _ (by norm_num)
  unfold encodeBlock2
  simp only [h1, and_seven]
  cases more
  · simp [or_low _ _ (by omega : szx % 8 < 16)]
  · simp only [if_true]
    rw [Nat.or_assoc, or_eight _ h8, or_low _ _ (by omega)]; omega

theorem decodeBlock2_eq (v : Nat) :
    decodeBlock2 v = (v / 8 % 2 == 1, v / 16, v % 8) := by
  unfold decodeBlock2
  simp [Nat.shiftRight_eq_div_pow, and_seven, and_one]

/-! ## The codec -/

/-- C1. Round trip of the Block2 codec: for every block number below 2^28,
every more flag and every szx in 0..7, decoding the encoded value returns
exactly (more, num, szx). -/
theorem decode_encode_roundtrip (num : Nat) (more : Bool) (szx : Nat)
    (hnum : num < 2 ^ 28) (hszx : szx ≤ 7) :
    decodeBlock2 (encodeBlock2 num more szx) = (more, num, szx) := by
  rw [decodeBlock2_eq, encodeBlock2_eq]
  have hn : num % 2 ^ 28 = num := Nat.mod_eq_of_lt hnum
  have hs : szx % 8 = szx := Nat.mod_eq_of_lt (by omega)
  rw [hn, hs]
  cases more
  · simp only [Bool.false_eq_true, if_false, Nat.add_zero, Prod.mk.injEq, beq_eq_false_iff_ne]
    refine ⟨?_, ?_, ?_⟩ <;> omega
  · simp only [if_true, Prod.mk.injEq, beq_iff_eq]
    refine ⟨?_, ?_, ?_⟩ <;> omega

theorem decode_encode_roundtrip_witness :
    decodeBlock2 (encodeBlock2 (2 ^ 28 - 1) true 7) = (true, 2 ^ 28 - 1, 7) :=
  decode_encode_roundtrip (2 ^ 28 - 1) true 7 (by decide) (by decide)

/-- C8. The codec is symmetric in both directions: for every 32-bit option
value v, decoding yields more = bit 3 of v, num = v >> 4 and szx = v & 0x7
(a value below 8, which the conversion to uint8 leaves alone), and packing these
three again gives back v. -/
theorem encode_decode_symmetric (v : Nat) (hv : v < 2 ^ 32) :
    decodeBlock2 v = (v.testBit 3, v >>> 4, v &&& 0x7) ∧
    (∀ more num szx, decodeBlock2 v = (more, num, szx) →
      szx % 2 ^ 8 = szx ∧ encodeBlock2 num more szx = v) := by
  have hdec : decodeBlock2 v = (v.testBit 3, v >>> 4, v &&& 0x7) := by
    rw [testBit_three, decodeBlock2_eq, Nat.shiftRight_eq_div_pow]
    simp [and_seven]
  refine ⟨hdec, ?_⟩
  intro more num szx h
  rw [decodeBlock2_eq] at h
  simp only [Prod.mk.injEq] at h
  obtain ⟨hm, hn, hs⟩ := h
  subst hn hs
  refine ⟨by norm_num; omega, ?_⟩
  rw [encodeBlock2_eq]
  have h28 : v / 16 % 2 ^ 28 = v / 16 := Nat.mod_eq_of_lt (by norm_num at hv ⊢; omega)
  rw [h28]
  by_cases hb : v / 8 % 2 = 1
  · have : more = true := by rw [← hm]; simpa using hb
    subst this
    simp only [if_true]; omega
  · have : more = false := by rw [← hm]; simpa using hb
    subst this
    simp only [Bool.false_eq_true, if_false]; omega

theorem encode_decode_symmetric_witness :
    decodeBlock2 0xFFFFFFFF = ((0xFFFFFFFF : Nat).testBit 3, 0xFFFFFFFF >>> 4, 0xFFFFFFFF &&& 0x7) ∧
    (∀ more num szx, decodeBlock2 0xFFFFFFFF = (more, num, szx) →
      szx % 2 ^ 8 = szx ∧ encodeBlock2 num more szx = 0xFFFFFFFF) :=
  encode_decode_symmetric 0xFFFFFFFF (by decide)

/-! ## Unfolding the loop -/

theorem loop_cons_next {path : String} {s s1 : Session} {r : Round} {fx : List Effect}
    (h : exchange path s r = (fx, Step.next s1)) (rs : List Round) :
    loop path s (r :: rs) = (fx ++ (loop path s1 rs).1, (loop path s1 rs).2) := by
  simp only [loop, h]

theorem loop_cons_done {path : String} {s : Session} {r : Round} {fx : List Effect}
    {payload : List Nat} (h : exchange path s r = (fx, Step.done payload)) (rs : List Round) :
    loop path s (r :: rs) = (fx, Outcome.returned payload) := by
  simp only [loop, h]

theorem loop_cons_failed {path : String} {s : Session} {r : Round} {fx : List Effect}
    {e : Error} (h : exchange path s r = (fx, Step.failed e)) (rs : List Round) :
    loop path s (r :: rs) = (fx, Outcome.failed e) := by
  simp only [loop, h]

/-- Running on a longer list of rounds continues from where the shorter run is
about to start its next iteration. -/
theorem loop_append {path : String} (pre : List Round) :
    ∀ {s s1 : Session} {fx : List Effect}, loop path s pre = (fx, Outcome.running s1) →
      ∀ rest : List Round, loop path s (pre ++ rest)
        = (fx ++ (loop path s1 rest).1, (loop path s1 rest).2) := by
  induction pre with
  | nil =>
    intro s s1 fx h rest
    simp only [loop, Prod.mk.injEq, Outcome.running.injEq] at h
    obtain ⟨hfx, hs⟩ := h
    subst hfx hs
    simp
  | cons r rs ih =>
    intro s s1 fx h rest
    rcases hex : exchange path s r with ⟨fx0, st⟩
    cases st with
    | next s2 =>
      rw [loop_cons_next hex] at h
      rw [List.cons_append, loop_cons_next hex]
      simp only [Prod.mk.injEq] at h
      obtain ⟨hfx, hout⟩ := h
      have h2 : loop path s2 rs = ((loop path s2 rs).1, Outcome.running s1) := by
        rw [← hout]
      rw [ih h2 rest, ← hfx]
      simp
    | done payload =>
      rw [loop_cons_done hex] at h
      simp at h
    | failed e =>
      rw [loop_cons_failed hex] at h
      simp at h

theorem requests_append (a b : List Effect) :
    requests (a ++ b) = requests a ++ requests b := by
  induction a with
  | nil => rfl
  | cons x xs ih => cases x <;> simp [requests, ih]

/-- An iteration builds no request when the deadline has expired and exactly
one otherwise. -/
theorem requests_exchange (path : String) (s : Session) (r : Round) :
    requests (exchange path s r).1
      = if r.ctxErr then [] else [mkRequest path s r.token] := by
  unfold exchange
  by_cases hc : r.ctxErr = true
  · simp [hc, requests]
  · simp only [hc, if_false, Bool.false_eq_true]
    cases r.reply <;> simp [requests]

/-- A response whose token differs from the request's fails the iteration. -/
theorem exchange_token_mismatch {path : String} {s : Session} {r : Round} {resp : Response}
    (hctx : r.ctxErr = false) (hreply : r.reply = Reply.message resp)
    (hne : resp.token ≠ r.token) :
    exchange path s r = (exchangeEffects path s r.token,
      Step.failed (Error.tokenMismatch s.blockNum r.token)) := by
  simp [exchange, hctx, hreply, hne, exchangeEffects]

/-- A response with the request's token and a code other than 2.05 and 2.03
fails the iteration. -/
theorem exchange_bad_code {path : String} {s : Session} {r : Round} {resp : Response}
    (hctx : r.ctxErr = false) (hreply : r.reply = Reply.message resp)
    (htok : resp.token = r.token) (hcode : resp.code ≠ Content ∧ resp.code ≠ Valid) :
    exchange path s r = (exchangeEffects path s r.token,
      Step.failed Error.unexpectedCode) := by
  simp [exchange, hctx, hreply, htok, hcode, exchangeEffects]

/-- A response that passes the token and code checks and whose body is read:
the iteration appends the payload and then looks at the Block2 option. -/
theorem exchange_valid (path : String) (s : Session) {r : Round} {resp : Response}
    {payload : List Nat}
    (hctx : r.ctxErr = false) (hreply : r.reply = Reply.message resp)
    (htok : resp.token = r.token) (hcode : resp.code = Content ∨ resp.code = Valid)
    (hbody : resp.body = some payload) :
    exchange path s r = (exchangeEffects path s r.token,
      match resp.block2 with
      | none => Step.done (s.fullPayload ++ payload)
      | some v =>
        if (decodeBlock2 v).1 then
          Step.next
            { fullPayload := s.fullPayload ++ payload
              blockNum := ((decodeBlock2 v).2.1 + 1) % 2 ^ 32
              szx := (decodeBlock2 v).2.2 % 2 ^ 8
              messageID := (s.messageID + 1) % 2 ^ 16 }
        else Step.done (s.fullPayload ++ payload)) := by
  have hc : ¬ (resp.code ≠ Content ∧ resp.code ≠ Valid) := by
    rcases hcode with h | h <;> simp [h]
  simp only [exchange, hctx, hreply, htok, hbody, exchangeEffects, Bool.false_eq_true, if_false,
    ne_eq, not_true_eq_false, hc]
  refine congrArg _ ?_
  cases hb : resp.block2 with
  | none => rfl
  | some v =>
    simp only
    cases hm : (decodeBlock2 v).1 <;> simp

/-- An iteration that builds a request builds `mkRequest` of the current
locals and the generated token. -/
theorem requests_exchangeEffects (path : String) (s : Session) (token : List Nat) :
    requests (exchangeEffects path s token) = [mkRequest path s token] := rfl

/-- The only way an iteration falls through to the next one. -/
theorem exchange_next_inv {path : String} {s s1 : Session} {r : Round} {fx : List Effect}
    (h : exchange path s r = (fx, Step.next s1)) :
    ∃ resp payload v, r.ctxErr = false ∧ r.reply = Reply.message resp ∧
      resp.token = r.token ∧ (resp.code = Content ∨ resp.code = Valid) ∧
      resp.body = some payload ∧ resp.block2 = some v ∧ (decodeBlock2 v).1 = true ∧
      fx = exchangeEffects path s r.token ∧
      s1 = { fullPayload := s.fullPayload ++ payload
             blockNum := ((decodeBlock2 v).2.1 + 1) % 2 ^ 32
             szx := (decodeBlock2 v).2.2 % 2 ^ 8
             messageID := (s.messageID + 1) % 2 ^ 16 } := by
  cases hc : r.ctxErr with
  | true => simp [exchange, hc] at h
  | false =>
    cases hr : r.reply with
    | marshalFailed => simp [exchange, hc, hr] at h
    | writeFailed => simp [exchange, hc, hr] at h
    | readFailed => simp [exchange, hc, hr] at h
    | unmarshalFailed => simp [exchange, hc, hr] at h
    | message resp =>
      by_cases htok : resp.token = r.token
      · by_cases hcode : resp.code = Content ∨ resp.code = Valid
        · cases hbody : resp.body with
          | none =>
            have hn : ¬ (resp.code ≠ Content ∧ resp.code ≠ Valid) := by
              rcases hcode with h1 | h1 <;> simp [h1]
            simp [exchange, hc, hr, htok, hbody, hn] at h
          | some payload =>
            have hex := exchange_valid path s hc hr htok hcode hbody
            rw [hex] at h
            cases hb : resp.block2 with
            | none => simp [hb] at h
            | some v =>
              cases hm : (decodeBlock2 v).1 with
              | false => simp [hb, hm] at h
              | true =>
                simp only [hb, hm, if_true, Prod.mk.injEq, Step.next.injEq] at h
                exact ⟨resp, payload, v, rfl, rfl, htok, hcode, hbody, hb, hm, h.1.symm,
                  h.2.symm⟩
        · have hn : resp.code ≠ Content ∧ resp.code ≠ Valid := by
            push_neg at hcode; exact hcode
          rw [exchange_bad_code hc hr htok hn] at h
          simp at h
      · rw [exchange_token_mismatch hc hr htok] at h
        simp at h

/-- The only way an iteration leaves the loop through `break`. -/
theorem exchange_done_inv {path : String} {s : Session} {r : Round} {fx : List Effect}
    {p : List Nat} (h : exchange path s r = (fx, Step.done p)) :
    ∃ resp payload, r.ctxErr = false ∧ r.reply = Reply.message resp ∧
      resp.token = r.token ∧ (resp.code = Content ∨ resp.code = Valid) ∧
      resp.body = some payload ∧
      fx = exchangeEffects path s r.token ∧ p = s.fullPayload ++ payload := by
  cases hc : r.ctxErr with
  | true => simp [exchange, hc] at h
  | false =>
    cases hr : r.reply with
    | marshalFailed => simp [exchange, hc, hr] at h
    | writeFailed => simp [exchange, hc, hr] at h
    | readFailed => simp [exchange, hc, hr] at h
    | unmarshalFailed => simp [exchange, hc, hr] at h
    | message resp =>
      by_cases htok : resp.token = r.token
      · by_cases hcode : resp.code = Content ∨ resp.code = Valid
        · cases hbody : resp.body with
          | none =>
            have hn : ¬ (resp.code ≠ Content ∧ resp.code ≠ Valid) := by
              rcases hcode with h1 | h1 <;> simp [h1]
            simp [exchange, hc, hr, htok, hbody, hn] at h
          | some payload =>
            have hex := exchange_valid path s hc hr htok hcode hbody
            rw [hex] at h
            refine ⟨resp, payload, rfl, rfl, htok, hcode, hbody, ?_⟩
            cases hb : resp.block2 with
            | none =>
              simp only [hb, Prod.mk.injEq, Step.done.injEq] at h
              exact ⟨h.1.symm, h.2.symm⟩
            | some v =>
              cases hm : (decodeBlock2 v).1 with
              | false =>
                simp only [hb, hm, Bool.false_eq_true, if_false, Prod.mk.injEq,
                  Step.done.injEq] at h
                exact ⟨h.1.symm, h.2.symm⟩
              | true => simp [hb, hm] at h
        · have hn : resp.code ≠ Content ∧ resp.code ≠ Valid := by
            push_neg at hcode; exact hcode
          rw [exchange_bad_code hc hr htok hn] at h
          simp at h
      · rw [exchange_token_mismatch hc hr htok] at h
        simp at h

/-- The requests of a run that starts with a round: at most the request of
that round when the run ends there. -/
theorem requests_loop_cons_stop {path : String} {s : Session} {r : Round} {rs : List Round}
    (h : ∀ s1, (exchange path s r).2 ≠ Step.next s1) :
    requests (loop path s (r :: rs)).1
      = if r.ctxErr then [] else [mkRequest path s r.token] := by
  rcases hex : exchange path s r with ⟨fx, st⟩
  have hfx : requests fx = if r.ctxErr then [] else [mkRequest path s r.token] := by
    have := requests_exchange path s r
    rw [hex] at this
    exact this
  cases st with
  | next s1 => exact absurd (by rw [hex]) (h s1)
  | done p => rw [loop_cons_done hex]; exact hfx
  | failed e => rw [loop_cons_failed hex]; exact hfx

/-- The requests of a run whose first iteration falls through. -/
theorem requests_loop_cons_next {path : String} {s s1 : Session} {r : Round} {fx : List Effect}
    (h : exchange path s r = (fx, Step.next s1)) (rs : List Round) :
    requests (loop path s (r :: rs)).1
      = mkRequest path s r.token :: requests (loop path s1 rs).1 := by
  obtain ⟨resp, payload, v, -, -, -, -, -, -, -, hfx, -⟩ := exchange_next_inv h
  rw [loop_cons_next h, requests_append, hfx, requests_exchangeEffects]
  rfl

/-- Every request of a run is `mkRequest` of some locals and token. -/
theorem requests_loop_shape (path : String) (rounds : List Round) :
    ∀ (s : Session), ∀ req ∈ requests (loop path s rounds).1,
      ∃ s1 token, req = mkRequest path s1 token := by
  induction rounds with
  | nil => intro s req h; simp [loop, requests] at h
  | cons r rs ih =>
    intro s req h
    rcases hex : exchange path s r with ⟨fx, st⟩
    cases st with
    | next s1 =>
      rw [requests_loop_cons_next hex] at h
      rcases List.mem_cons.mp h with h | h
      · exact ⟨s, r.token, h⟩
      · exact ih s1 req h
    | done p =>
      rw [requests_loop_cons_stop (by rw [hex]; simp)] at h
      by_cases hc : r.ctxErr = true
      · simp [hc] at h
      · simp only [hc, Bool.false_eq_true, if_false, List.mem_singleton] at h
        exact ⟨s, r.token, h⟩
    | failed e =>
      rw [requests_loop_cons_stop (by rw [hex]; simp)] at h
      by_cases hc : r.ctxErr = true
      · simp [hc] at h
      · simp only [hc, Bool.false_eq_true, if_false, List.mem_singleton] at h
        exact ⟨s, r.token, h⟩

/-- The first request of a run whose first round finds the deadline open. -/
theorem requests_loop_head {path : String} {s : Session} {r : Round} (rs : List Round)
    (hctx : r.ctxErr = false) :
    (requests (loop path s (r :: rs)).1)[0]? = some (mkRequest path s r.token) := by
  rcases hex : exchange path s r with ⟨fx, st⟩
  cases st with
  | next s1 => rw [requests_loop_cons_next hex]; simp
  | done p => rw [requests_loop_cons_stop (by rw [hex]; simp)]; simp [hctx]
  | failed e => rw [requests_loop_cons_stop (by rw [hex]; simp)]; simp [hctx]

/-! ## Validation of a response -/

/-- The run of the first sample round. -/
theorem run_firstRound :
    blockwiseGETWithTokenRotation "/fw" [firstRound]
      = (exchangeEffects "/fw" Session.init tokenA, Outcome.running afterFirst) := by
  decide



/-- C2. Rejection on token mismatch: in any exchange (after any run `pre` that
is about to start a further iteration), a decoded response whose token differs
from the token generated for this exchange makes the transfer return the token
mismatch error (for the current block number and the generated token),
whatever its code, payload and Block2 option are and whatever was
accumulated; the outcome carries no payload and the effects end with this
exchange, whatever rounds would follow. -/
theorem token_mismatch_rejected (path : String) (pre rest : List Round) (r : Round)
    (fx : List Effect) (s : Session) (resp : Response)
    (hpre : blockwiseGETWithTokenRotation path pre = (fx, Outcome.running s))
    (hctx : r.ctxErr = false) (hreply : r.reply = Reply.message resp)
    (hne : resp.token ≠ r.token) :
    blockwiseGETWithTokenRotation path (pre ++ r :: rest)
      = (fx ++ exchangeEffects path s r.token,
          Outcome.failed (Error.tokenMismatch s.blockNum r.token)) := by
  unfold blockwiseGETWithTokenRotation at hpre ⊢
  rw [loop_append pre hpre, loop_cons_failed (exchange_token_mismatch hctx hreply hne)]

theorem token_mismatch_rejected_witness :
    blockwiseGETWithTokenRotation "/fw"
        ([firstRound] ++
          { ctxErr := false, token := tokenB,
            reply := Reply.message
              { token := tokenA, code := Content, body := some [1, 2, 3], block2 := none } }
          :: [okRound tokenC [4] none])
      = (exchangeEffects "/fw" Session.init tokenA ++ exchangeEffects "/fw" afterFirst tokenB,
          Outcome.failed (Error.tokenMismatch 1 tokenB)) :=
  token_mismatch_rejected "/fw" [firstRound] [okRound tokenC [4] none] _ _ afterFirst
    { token := tokenA, code := Content, body := some [1, 2, 3], block2 := none }
    run_firstRound rfl rfl (by decide)

/-- C6. Rejection on response code: in any exchange, a response whose token
matches and whose code is neither Content (2.05) nor Valid (2.03) makes the
transfer return the unexpected-code error, with no payload and no further
effect whatever rounds would follow; and a response whose token matches and
whose code is Content or Valid never ends that exchange with the
unexpected-code error. -/
theorem code_check (path : String) (pre : List Round) (r : Round)
    (fx : List Effect) (s : Session) (resp : Response)
    (hpre : blockwiseGETWithTokenRotation path pre = (fx, Outcome.running s))
    (hctx : r.ctxErr = false) (hreply : r.reply = Reply.message resp)
    (htok : resp.token = r.token) :
    (resp.code ≠ Content ∧ resp.code ≠ Valid →
      ∀ rest, blockwiseGETWithTokenRotation path (pre ++ r :: rest)
        = (fx ++ exchangeEffects path s r.token,
            Outcome.failed Error.unexpectedCode)) ∧
    (resp.code = Content ∨ resp.code = Valid →
      (blockwiseGETWithTokenRotation path (pre ++ [r])).2
        ≠ Outcome.failed Error.unexpectedCode) := by
  unfold blockwiseGETWithTokenRotation at hpre ⊢
  refine ⟨?_, ?_⟩
  · intro hcode rest
    rw [loop_append pre hpre, loop_cons_failed (exchange_bad_code hctx hreply htok hcode)]
  · intro hcode
    rw [loop_append pre hpre]
    cases hbody : resp.body with
    | none =>
      have hc : ¬ (resp.code ≠ Content ∧ resp.code ≠ Valid) := by
        rcases hcode with h | h <;> simp [h]
      have hex : exchange path s r
          = (exchangeEffects path s r.token, Step.failed (Error.readBody s.blockNum)) := by
        simp [exchange, hctx, hreply, htok, hbody, exchangeEffects, hc]
      rw [loop_cons_failed hex]
      simp
    | some payload =>
      have hex := exchange_valid path s hctx hreply htok hcode hbody
      cases hb : resp.block2 with
      | none =>
        rw [hb] at hex
        rw [loop_cons_done hex]
        simp
      | some v =>
        rw [hb] at hex
        cases hm : (decodeBlock2 v).1
        · simp only [hm, Bool.false_eq_true, if_false] at hex
          rw [loop_cons_done hex]
          simp
        · simp only [hm, if_true] at hex
          rw [loop_cons_next hex]
          simp [loop]

theorem code_check_witness :
    blockwiseGETWithTokenRotation "/fw"
        ([firstRound] ++
          { ctxErr := false, token := tokenB,
            reply := Reply.message
              { token := tokenB, code := 4 * 32 + 4, body := some [1, 2, 3], block2 := none } }
          :: [okRound tokenC [4] none])
      = (exchangeEffects "/fw" Session.init tokenA ++ exchangeEffects "/fw" afterFirst tokenB,
          Outcome.failed Error.unexpectedCode) :=
  (code_check "/fw" [firstRound] _ _ afterFirst
    { token := tokenB, code := 4 * 32 + 4, body := some [1, 2, 3], block2 := none }
    run_firstRound rfl rfl rfl).1 (by decide) [okRound tokenC [4] none]

/-- C7. Deadline enforcement: if the context has expired when an iteration
begins, the first one (`pre` empty) or a later one, the transfer returns the
cancellation error; the effects are those performed before this iteration (no
token generated, no request built or written for it), and no payload is
returned whatever was accumulated. -/
theorem expired_deadline_cancels (path : String) (pre rest : List Round) (r : Round)
    (fx : List Effect) (s : Session)
    (hpre : blockwiseGETWithTokenRotation path pre = (fx, Outcome.running s))
    (hctx : r.ctxErr = true) :
    blockwiseGETWithTokenRotation path (pre ++ r :: rest)
      = (fx, Outcome.failed Error.contextCancelled) := by
  unfold blockwiseGETWithTokenRotation at hpre ⊢
  have hex : exchange path s r = ([], Step.failed Error.contextCancelled) := by
    simp [exchange, hctx]
  rw [loop_append pre hpre, loop_cons_failed hex]
  simp

theorem expired_deadline_cancels_witness :
    blockwiseGETWithTokenRotation "/fw"
        ([firstRound] ++
          { ctxErr := true, token := tokenB, reply := (okRound tokenB [1, 2, 3] none).reply }
          :: [okRound tokenC [4] none])
      = (exchangeEffects "/fw" Session.init tokenA, Outcome.failed Error.contextCancelled) :=
  expired_deadline_cancels "/fw" [firstRound] [okRound tokenC [4] none] _ _ afterFirst
    run_firstRound rfl

/-- C5. End of transfer: in any exchange, a response that passes validation
(decoded, token equal to the request token, code Content or Valid, body read)
and that carries no Block2 option, or a Block2 option whose bit 3 is 0, makes
the transfer return successfully in that exchange: the effects end with this
exchange whatever rounds would follow, and the result is the payload
accumulated so far followed by this response's payload. -/
theorem final_block_terminates (path : String) (pre rest : List Round) (r : Round)
    (fx : List Effect) (s : Session) (resp : Response) (payload : List Nat)
    (hpre : blockwiseGETWithTokenRotation path pre = (fx, Outcome.running s))
    (hctx : r.ctxErr = false) (hreply : r.reply = Reply.message resp)
    (htok : resp.token = r.token) (hcode : resp.code = Content ∨ resp.code = Valid)
    (hbody : resp.body = some payload)
    (hlast : resp.block2 = none ∨ ∃ v, resp.block2 = some v ∧ v.testBit 3 = false) :
    blockwiseGETWithTokenRotation path (pre ++ r :: rest)
      = (fx ++ exchangeEffects path s r.token, Outcome.returned (s.fullPayload ++ payload)) := by
  unfold blockwiseGETWithTokenRotation at hpre ⊢
  have hex := exchange_valid path s hctx hreply htok hcode hbody
  rcases hlast with hb | ⟨v, hb, hbit⟩
  · rw [hb] at hex
    rw [loop_append pre hpre, loop_cons_done hex]
  · have hm : (decodeBlock2 v).1 = false := by
      rw [decodeBlock2_eq, ← testBit_three]
      exact hbit
    rw [hb] at hex
    simp only [hm, Bool.false_eq_true, if_false] at hex
    rw [loop_append pre hpre, loop_cons_done hex]

theorem final_block_terminates_witness :
    blockwiseGETWithTokenRotation "/fw"
        ([firstRound] ++ okRound tokenB [1, 2, 3] (some 0x10) :: [okRound tokenC [4] none])
      = (exchangeEffects "/fw" Session.init tokenA ++ exchangeEffects "/fw" afterFirst tokenB,
          Outcome.returned (List.replicate 16 0xab ++ [1, 2, 3])) :=
  final_block_terminates "/fw" [firstRound] [okRound tokenC [4] none] _ _ afterFirst
    { token := tokenB, code := Content, body := some [1, 2, 3], block2 := some 0x10 } [1, 2, 3]
    run_firstRound rfl rfl rfl (Or.inl rfl) rfl (Or.inr ⟨0x10, rfl, by decide⟩)

/-! ## Reassembly -/

/-- A run that returns a payload has appended, to what it started with, the
payloads of the rounds it went through, one request per round. -/
theorem loop_returned (path : String) (rounds : List Round) :
    ∀ (s : Session) (fx : List Effect) (p : List Nat),
      loop path s rounds = (fx, Outcome.returned p) →
      ∃ payloads : List (List Nat),
        (rounds.take (requests fx).length).map Round.payload = payloads.map some ∧
        p = s.fullPayload ++ payloads.flatten ∧
        1 ≤ (requests fx).length ∧ (requests fx).length ≤ rounds.length := by
  induction rounds with
  | nil => intro s fx p h; simp [loop] at h
  | cons r rs ih =>
    intro s fx p h
    rcases hex : exchange path s r with ⟨fx0, st⟩
    cases st with
    | next s1 =>
      have hreq := requests_loop_cons_next hex rs
      obtain ⟨resp, payload, v, -, hreply, -, -, hbody, -, -, -, hs1⟩ := exchange_next_inv hex
      rw [loop_cons_next hex] at h
      simp only [Prod.mk.injEq] at h
      obtain ⟨hfx, hout⟩ := h
      have h1 : loop path s1 rs = ((loop path s1 rs).1, Outcome.returned p) := by
        rw [← hout]
      obtain ⟨pls, hmap, hp, hge, hle⟩ := ih s1 _ p h1
      have hlen : (requests fx).length = (requests (loop path s1 rs).1).length + 1 := by
        rw [← hfx, requests_append, List.length_append]
        obtain ⟨_, _, _, _, _, _, _, _, _, _, hfx0, _⟩ := exchange_next_inv hex
        rw [hfx0, requests_exchangeEffects]
        simp; omega
      refine ⟨payload :: pls, ?_, ?_, by omega, by simp only [List.length_cons]; omega⟩
      · rw [hlen, List.take_succ_cons, List.map_cons, List.map_cons, hmap]
        simp [Round.payload, hreply, hbody]
      · rw [hp, hs1]
        simp
    | done p0 =>
      obtain ⟨resp, payload, -, hreply, -, -, hbody, hfx0, hp0⟩ := exchange_done_inv hex
      rw [loop_cons_done hex] at h
      simp only [Prod.mk.injEq, Outcome.returned.injEq] at h
      obtain ⟨hfx, hp⟩ := h
      refine ⟨[payload], ?_, ?_, ?_, ?_⟩
      · rw [← hfx, hfx0, requests_exchangeEffects]
        simp [Round.payload, hreply, hbody]
      · rw [← hp, hp0]; simp
      · rw [← hfx, hfx0, requests_exchangeEffects]; simp
      · rw [← hfx, hfx0, requests_exchangeEffects]; simp
    | failed e =>
      rw [loop_cons_failed hex] at h
      simp at h

/-- C4. Reassembly: whenever the transfer returns successfully, having built n
requests (one per exchange), each of the first n rounds delivered a response
with a payload, and the returned bytes are the concatenation of these n
payloads in exchange order. -/
theorem reassembly (path : String) (rounds : List Round) (fx : List Effect) (p : List Nat)
    (h : blockwiseGETWithTokenRotation path rounds = (fx, Outcome.returned p)) :
    ∃ payloads : List (List Nat),
      (rounds.take (requests fx).length).map Round.payload = payloads.map some ∧
      p = payloads.flatten ∧
      1 ≤ (requests fx).length ∧ (requests fx).length ≤ rounds.length := by
  obtain ⟨pls, h1, h2, h3, h4⟩ := loop_returned path rounds Session.init fx p h
  exact ⟨pls, h1, by simpa [Session.init] using h2, h3, h4⟩


/-- The run of the three-block scenario. -/
theorem run_threeBlocks :
    blockwiseGETWithTokenRotation "/fw" threeBlocks
      = (exchangeEffects "/fw" Session.init tokenA
          ++ exchangeEffects "/fw"
              { fullPayload := List.replicate 1024 0xa, blockNum := 1, szx := 6, messageID := 2 }
              tokenB
          ++ exchangeEffects "/fw"
              { fullPayload := List.replicate 1024 0xa ++ List.replicate 1024 0xb,
                blockNum := 2, szx := 6, messageID := 3 }
              tokenC,
         Outcome.returned
          (List.replicate 1024 0xa ++ List.replicate 1024 0xb ++ List.replicate 200 0xc)) := by
  rfl

theorem reassembly_witness :
    (List.replicate 1024 0xa ++ List.replicate 1024 0xb ++ List.replicate 200 0xc).length = 2248 ∧
    ∃ payloads : List (List Nat),
      (threeBlocks.take 3).map Round.payload = payloads.map some ∧
      List.replicate 1024 0xa ++ List.replicate 1024 0xb ++ List.replicate 200 0xc
        = payloads.flatten ∧
      1 ≤ 3 ∧ 3 ≤ threeBlocks.length :=
  ⟨by simp only [List.length_append, List.length_replicate], reassembly "/fw" threeBlocks _ _ run_threeBlocks⟩

/-! ## The sequence of requests -/

theorem block2Num_encodeBlock2 (num szx : Nat) :
    block2Num (encodeBlock2 num false szx) = num % 2 ^ 28 := by
  unfold block2Num
  rw [decodeBlock2_eq, encodeBlock2_eq]
  simp only [Bool.false_eq_true, if_false, Nat.add_zero]
  omega

/-- Message ids along a run: the k-th request carries the start value plus k,
as a 16-bit number. -/
theorem messageID_loop (path : String) (rounds : List Round) :
    ∀ (s : Session) (k : Nat) (req : Request), s.messageID < 2 ^ 16 →
      (requests (loop path s rounds).1)[k]? = some req →
      req.messageID = (s.messageID + k) % 2 ^ 16 := by
  induction rounds with
  | nil => intro s k req _ h; simp [loop, requests] at h
  | cons r rs ih =>
    intro s k req hs h
    rcases hex : exchange path s r with ⟨fx, st⟩
    have hstop : (∀ s1, (exchange path s r).2 ≠ Step.next s1) →
        req.messageID = (s.messageID + k) % 2 ^ 16 := by
      intro hno
      rw [requests_loop_cons_stop hno] at h
      by_cases hc : r.ctxErr = true
      · simp [hc] at h
      · simp only [hc, Bool.false_eq_true, if_false] at h
        cases k with
        | zero =>
          simp only [List.getElem?_cons_zero, Option.some.injEq] at h
          rw [← h]
          simp only [mkRequest, Nat.add_zero]
          exact (Nat.mod_eq_of_lt hs).symm
        | succ k => simp at h
    cases st with
    | next s1 =>
      obtain ⟨resp, payload, v, -, -, -, -, -, -, -, -, hs1⟩ := exchange_next_inv hex
      rw [requests_loop_cons_next hex] at h
      cases k with
      | zero =>
        simp only [List.getElem?_cons_zero, Option.some.injEq] at h
        rw [← h]
        simp only [mkRequest, Nat.add_zero]
        exact (Nat.mod_eq_of_lt hs).symm
      | succ k =>
        rw [List.getElem?_cons_succ] at h
        have hlt : s1.messageID < 2 ^ 16 := by
          rw [hs1]; exact Nat.mod_lt _ (by norm_num)
        rw [ih s1 k req hlt h, hs1]
        simp only
        omega
    | done p => exact hstop (by rw [hex]; simp)
    | failed e => exact hstop (by rw [hex]; simp)

/-- C10. Message-id counter: the message id starts at 1 and is incremented once
per continued exchange as a 16-bit number, whatever the responses do to szx,
so the request of the k-th exchange carries message id (1 + k) mod 2^16. -/
theorem messageID_sequence (path : String) (rounds : List Round) (k : Nat) (req : Request)
    (h : (requests (blockwiseGETWithTokenRotation path rounds).1)[k]? = some req) :
    req.messageID = (1 + k) % 2 ^ 16 :=
  messageID_loop path rounds Session.init k req (by decide) h

theorem messageID_sequence_witness :
    (mkRequest "/fw" afterFirst tokenB).messageID = (1 + 1) % 2 ^ 16 :=
  messageID_sequence "/fw" [firstRound, okRound tokenB [1, 2, 3] (some 0x10)] 1
    (mkRequest "/fw" afterFirst tokenB) (by decide)

/-- Block numbers along a run whose responses report the block number that
was requested. -/
theorem blockNum_loop (path : String) (rounds : List Round) :
    ∀ (s : Session) (k : Nat) (req : Request), s.blockNum + k < 2 ^ 28 →
      (∀ j, j < k → ∀ rd resp v, rounds[j]? = some rd → rd.reply = Reply.message resp →
        resp.block2 = some v → block2Num v = s.blockNum + j) →
      (requests (loop path s rounds).1)[k]? = some req →
      block2Num req.block2 = s.blockNum + k := by
  induction rounds with
  | nil => intro s k req _ _ h; simp [loop, requests] at h
  | cons r rs ih =>
    intro s k req hs hecho h
    rcases hex : exchange path s r with ⟨fx, st⟩
    have hzero : mkRequest path s r.token = req → k = 0 →
        block2Num req.block2 = s.blockNum + k := by
      intro hreq hk
      subst hk
      rw [← hreq]
      simp only [mkRequest, block2Num_encodeBlock2, Nat.add_zero]
      exact Nat.mod_eq_of_lt (by omega)
    have hstop : (∀ s1, (exchange path s r).2 ≠ Step.next s1) →
        block2Num req.block2 = s.blockNum + k := by
      intro hno
      rw [requests_loop_cons_stop hno] at h
      by_cases hc : r.ctxErr = true
      · simp [hc] at h
      · simp only [hc, Bool.false_eq_true, if_false] at h
        cases k with
        | zero =>
          simp only [List.getElem?_cons_zero, Option.some.injEq] at h
          exact hzero h rfl
        | succ k => simp at h
    cases st with
    | next s1 =>
      obtain ⟨resp, payload, v, -, hreply, -, -, -, hb, -, -, hs1⟩ := exchange_next_inv hex
      rw [requests_loop_cons_next hex] at h
      cases k with
      | zero =>
        simp only [List.getElem?_cons_zero, Option.some.injEq] at h
        exact hzero h rfl
      | succ k =>
        rw [List.getElem?_cons_succ] at h
        have hv : block2Num v = s.blockNum + 0 :=
          hecho 0 (by omega) r resp v (by simp) hreply hb
        have hb1 : s1.blockNum = s.blockNum + 1 := by
          rw [hs1]
          show (block2Num v + 1) % 2 ^ 32 = s.blockNum + 1
          rw [hv]
          exact Nat.mod_eq_of_lt (by norm_num at hs ⊢; omega)
        have hecho1 : ∀ j, j < k → ∀ rd resp v, rs[j]? = some rd →
            rd.reply = Reply.message resp → resp.block2 = some v →
            block2Num v = s1.blockNum + j := by
          intro j hj rd resp1 v1 hrd hr1 hv1
          have := hecho (j + 1) (by omega) rd resp1 v1
            (by rw [List.getElem?_cons_succ]; exact hrd) hr1 hv1
          rw [this, hb1]; omega
        rw [ih s1 k req (by rw [hb1]; omega) hecho1 h, hb1]
        omega
    | done p => exact hstop (by rw [hex]; simp)
    | failed e => exact hstop (by rw [hex]; simp)

/-- C3, as stated, fails: after a response that reports block 5 the second
request (k = 1) asks for block 6. -/
theorem sequential_requests_counterexample :
    ¬ (∀ (path : String) (rounds : List Round) (k : Nat) (req : Request),
        (requests (blockwiseGETWithTokenRotation path rounds).1)[k]? = some req →
        block2Num req.block2 = k) := by
  intro h
  have h1 := h "/fw" skippingRounds 1
    (mkRequest "/fw"
      { fullPayload := List.replicate 16 0xab, blockNum := 6, szx := 0, messageID := 2 } tokenB)
    (by decide)
  revert h1
  decide

/-- C3, amended. The requests follow the block numbers the server reports: for
k below 2^28, when each response before the k-th exchange that carries a
Block2 option reports the block number of its own exchange (the number that
was requested), the request of the k-th exchange carries block number k. -/
theorem sequential_requests_when_echoed (path : String) (rounds : List Round) (k : Nat)
    (req : Request) (hk : k < 2 ^ 28)
    (hecho : ∀ j, j < k → ∀ rd resp v, rounds[j]? = some rd →
      rd.reply = Reply.message resp → resp.block2 = some v → block2Num v = j)
    (h : (requests (blockwiseGETWithTokenRotation path rounds).1)[k]? = some req) :
    block2Num req.block2 = k := by
  have := blockNum_loop path rounds Session.init k req
    (by simpa [Session.init] using hk)
    (by
      intro j hj rd resp v h1 h2 h3
      rw [hecho j hj rd resp v h1 h2 h3]
      simp [Session.init])
    h
  simpa [Session.init] using this

theorem sequential_requests_when_echoed_witness :
    block2Num (mkRequest "/fw" afterFirst tokenB).block2 = 1 :=
  sequential_requests_when_echoed "/fw" [firstRound, okRound tokenB [1, 2, 3] (some 0x10)] 1
    (mkRequest "/fw" afterFirst tokenB) (by decide)
    (by
      intro j hj rd resp v h1 h2 h3
      have hj0 : j = 0 := by omega
      subst hj0
      simp only [List.getElem?_cons_zero, Option.some.injEq] at h1
      subst h1
      simp only [firstRound, okRound, Reply.message.injEq] at h2
      subst h2
      simp only [Option.some.injEq] at h3
      subst h3
      decide)
    (by decide)

/-! ## The step to the next exchange -/

theorem testBit_three_encodeBlock2 (num szx : Nat) :
    (encodeBlock2 num false szx).testBit 3 = false := by
  rw [testBit_three, encodeBlock2_eq]
  simp only [Bool.false_eq_true, if_false, Nat.add_zero, beq_eq_false_iff_ne]
  omega

theorem encodeBlock2_truncated (num szx : Nat) :
    encodeBlock2 ((num + 1) % 2 ^ 32) false (szx % 2 ^ 8) = encodeBlock2 (num + 1) false szx := by
  rw [encodeBlock2_eq, encodeBlock2_eq]
  simp only [Bool.false_eq_true, if_false, Nat.add_zero]
  omega

/-- C9. Step to the next exchange: the first request carries Block2 =
encodeBlock2(0, false, 6); after a valid response whose Block2 option decodes
to (more = true, num, szx1), the next request carries Block2 =
encodeBlock2(num + 1, false, szx1), the szx and the number reported by the
server; and bit 3 of the Block2 value of every request is 0. -/
theorem next_request_block2 (path : String) (pre rest : List Round) (r r1 : Round)
    (fx : List Effect) (s : Session) (resp : Response) (payload : List Nat)
    (v num szx1 : Nat)
    (hpre : blockwiseGETWithTokenRotation path pre = (fx, Outcome.running s))
    (hctx : r.ctxErr = false) (hreply : r.reply = Reply.message resp)
    (htok : resp.token = r.token) (hcode : resp.code = Content ∨ resp.code = Valid)
    (hbody : resp.body = some payload) (hb : resp.block2 = some v)
    (hdec : decodeBlock2 v = (true, num, szx1)) (hctx1 : r1.ctxErr = false) :
    (∀ r0 rs, r0.ctxErr = false →
      ∃ req, (requests (blockwiseGETWithTokenRotation path (r0 :: rs)).1)[0]? = some req ∧
        req.block2 = encodeBlock2 0 false 6) ∧
    (∃ req, (requests (blockwiseGETWithTokenRotation path (pre ++ r :: r1 :: rest)).1)[
        (requests fx).length + 1]? = some req ∧
      req.block2 = encodeBlock2 (num + 1) false szx1) ∧
    (∀ rounds, ∀ req ∈ requests (blockwiseGETWithTokenRotation path rounds).1,
      req.block2.testBit 3 = false) := by
  unfold blockwiseGETWithTokenRotation at hpre ⊢
  refine ⟨?_, ?_, ?_⟩
  · intro r0 rs h0
    exact ⟨_, requests_loop_head rs h0, rfl⟩
  · have hex := exchange_valid path s hctx hreply htok hcode hbody
    rw [hb] at hex
    simp only [hdec, if_true] at hex
    refine ⟨mkRequest path
      { fullPayload := s.fullPayload ++ payload
        blockNum := (num + 1) % 2 ^ 32
        szx := szx1 % 2 ^ 8
        messageID := (s.messageID + 1) % 2 ^ 16 } r1.token, ?_,
      encodeBlock2_truncated num szx1⟩
    rw [loop_append pre hpre]
    simp only
    rw [requests_append, List.getElem?_append_right (by omega), requests_loop_cons_next hex]
    have hidx : (requests fx).length + 1 - (requests fx).length = 0 + 1 := by omega
    rw [hidx, List.getElem?_cons_succ, requests_loop_head rest hctx1]
  · intro rounds req hreq
    obtain ⟨s1, token, h⟩ := requests_loop_shape path rounds Session.init req hreq
    rw [h]
    exact testBit_three_encodeBlock2 _ _

theorem next_request_block2_witness :
    ∃ req, (requests (blockwiseGETWithTokenRotation "/fw"
        ([] ++ firstRound :: okRound tokenB [1, 2, 3] (some 0x10) :: [])).1)[0 + 1]? = some req ∧
      req.block2 = encodeBlock2 (0 + 1) false 0 :=
  (next_request_block2 "/fw" [] [] firstRound (okRound tokenB [1, 2, 3] (some 0x10))
    [] Session.init
    { token := tokenA, code := Content, body := some (List.replicate 16 0xab),
      block2 := some 0x08 }
    (List.replicate 16 0xab) 0x08 0 0 rfl rfl rfl rfl (Or.inl rfl) rfl rfl (by decide) rfl).2.1

end Blockwise
